import Mathlib

/-!
# Verification of the vozctl intent-resolution engine

Shallow embedding of the rule-based command matcher of the vozctl repository
(`src/vozctl/commands.py`, `src/vozctl/intent.py`, `src/vozctl/engine.py`).

Python strings are modelled as `List Char` (ASCII fragment); the concrete
regular expressions of the command registry are embedded through a small
backtracking matcher (`runRE`) whose search order mirrors CPython's `re`
module on those patterns: alternatives left first, greedy quantifiers longest
first, lazy quantifiers shortest first, `re.match` anchored at the start only.
-/

namespace Vozctl

/-- Python whitespace (`\s`, and the default `str.strip` / `str.split`
separators) restricted to the ASCII range, which is all the engine feeds it. -/
def pySpace (c : Char) : Bool :=
  c = ' ' || c = '\t' || c = '\n' || c = '\r' || c = '\x0b' || c = '\x0c'

/-- Python `\w` on ASCII input: letters, digits and the underscore. -/
def pyWordChar (c : Char) : Bool :=
  c.isAlphanum || c = '_'

/-- The character class kept by `_normalize`'s `re.sub(r"[^\w\s]", "", text)`. -/
def keepWordSpace (c : Char) : Bool :=
  pyWordChar c || pySpace c

/-- `str.lower()` (ASCII). -/
def pyLower (l : List Char) : List Char :=
  l.map Char.toLower

/-- `str.strip()` with no argument: drop whitespace from both ends. -/
def pyStrip (l : List Char) : List Char :=
  (((l.dropWhile pySpace).reverse).dropWhile pySpace).reverse

/-- Worker for `re.sub(r"\s+", " ", text)`: `inRun` records whether the
previous character was whitespace (i.e. we are inside a run that has already
emitted its single `' '`). -/
def collapseWsGo (inRun : Bool) : List Char → List Char
  | [] => []
  | c :: rest =>
    if pySpace c then
      if inRun then collapseWsGo true rest
      else ' ' :: collapseWsGo true rest
    else c :: collapseWsGo false rest

/-- `re.sub(r"\s+", " ", text)`: replace every maximal run of whitespace
characters by a single space. -/
def collapseWs (l : List Char) : List Char :=
  collapseWsGo false l

/-- `commands._normalize`: `text.lower().strip()`, then remove every character
that is neither a word character nor whitespace, then collapse whitespace
runs to one space.  (Note the strip happens before punctuation removal.) -/
def pyNormalize (l : List Char) : List Char :=
  collapseWs ((pyStrip (pyLower l)).filter keepWordSpace)

/-- Worker for `str.split()`: `cur` is the word being accumulated (in
order), flushed when whitespace or the end of the string is reached. -/
def pySplitGo (cur : List Char) : List Char → List (List Char)
  | [] => if cur.isEmpty then [] else [cur]
  | c :: rest =>
    if pySpace c then
      if cur.isEmpty then pySplitGo [] rest
      else cur :: pySplitGo [] rest
    else pySplitGo (cur ++ [c]) rest

/-- `str.split()` with no argument: words separated by whitespace runs,
no empty pieces. -/
def pySplit (l : List Char) : List (List Char) :=
  pySplitGo [] l

/-- `" ".join(words)`. -/
def joinSpace (ws : List (List Char)) : List Char :=
  List.intercalate [' '] ws

/-! ## A tiny regex engine

Only the constructs appearing in the registry's concrete patterns are
embedded.  `runRE` returns the list of possible (unconsumed suffix, named
captures) pairs in exactly CPython's backtracking order, so the head of the
list is the match `re.match` would produce. -/

/-- Regular-expression fragment used by the vozctl patterns. -/
inductive RE where
  /-- matches the empty string -/
  | eps : RE
  /-- a literal character sequence -/
  | lit : List Char → RE
  /-- one character of a class -/
  | cls : (Char → Bool) → RE
  /-- greedy `X*` of a character class -/
  | star : (Char → Bool) → RE
  /-- greedy `X+` of a character class -/
  | plus : (Char → Bool) → RE
  /-- lazy `X+?` of a character class -/
  | lazyPlus : (Char → Bool) → RE
  /-- concatenation -/
  | seq : RE → RE → RE
  /-- alternation, left alternative preferred -/
  | alt : RE → RE → RE
  /-- greedy optional group `(...)?` -/
  | opt : RE → RE
  /-- named capture group `(?P<name>...)` -/
  | grp : String → RE → RE

/-- Splits for a greedy `+`: consume a maximal run of class characters,
longest split first, at least one character. -/
def plusSplits (p : Char → Bool) (s : List Char) :
    List (List Char × List (String × List Char)) :=
  let m := (s.takeWhile p).length
  (List.range m).map (fun i => (s.drop (m - i), []))

/-- Splits for a greedy `*`: longest first, zero allowed. -/
def starSplits (p : Char → Bool) (s : List Char) :
    List (List Char × List (String × List Char)) :=
  let m := (s.takeWhile p).length
  (List.range (m + 1)).map (fun i => (s.drop (m - i), []))

/-- Splits for a lazy `+?`: shortest first, at least one character. -/
def lazyPlusSplits (p : Char → Bool) (s : List Char) :
    List (List Char × List (String × List Char)) :=
  let m := (s.takeWhile p).length
  (List.range m).map (fun i => (s.drop (i + 1), []))

/-- Run a regex against the front of `s`.  Results are (suffix left over,
captures) in backtracking priority order. -/
def runRE : RE → List Char → List (List Char × List (String × List Char))
  | .eps, s => [(s, [])]
  | .lit cs, s => if cs.isPrefixOf s then [(s.drop cs.length, [])] else []
  | .cls _, [] => []
  | .cls p, c :: s => if p c then [(s, [])] else []
  | .star p, s => starSplits p s
  | .plus p, s => plusSplits p s
  | .lazyPlus p, s => lazyPlusSplits p s
  | .seq a b, s =>
    (runRE a s).flatMap (fun r1 =>
      (runRE b r1.1).map (fun r2 => (r2.1, r1.2 ++ r2.2)))
  | .alt a b, s => runRE a s ++ runRE b s
  | .opt a, s => runRE a s ++ [(s, [])]
  | .grp n a, s =>
    (runRE a s).map (fun r1 => (r1.1, (n, s.take (s.length - r1.1.length)) :: r1.2))

/-- `re.match(pattern, s)` (anchored at the start, trailing text allowed):
the first result in backtracking order. -/
def reMatch (r : RE) (s : List Char) :
    Option (List Char × List (String × List Char)) :=
  (runRE r s).head?

/-- Does some backtracking path consume the whole string (a full-string
match in the sense of `re.fullmatch`)? -/
def reFullMatchExists (r : RE) (s : List Char) : Bool :=
  (runRE r s).any (fun res => res.1.isEmpty)

/-! ## The parameterized pattern registry (`_PARAMETERIZED`)

Each decorator call `@parameterized(pattern, name)` appends
`(re.compile(pattern), name, handler)` to `_PARAMETERIZED`; the patterns
below are the nine concrete regexes of `commands.py` in registration order. -/

/-- Literal regex piece from a string. -/
def litS (s : String) : RE := .lit s.data

/-- `(?P<count>\w+ )?` — greedy optional count group ending in a space. -/
def countOptGrp : RE := .opt (.grp "count" (.seq (.plus pyWordChar) (litS " ")))

/-- `words?` -/
def wordsOpt : RE := .seq (litS "word") (.opt (litS "s"))

/-- `(?P<direction>left|right)` -/
def dirLR : RE := .grp "direction" (.alt (litS "left") (litS "right"))

/-- `(?P<direction>up|down|left|right)` -/
def dirUDLR : RE :=
  .grp "direction" (.alt (litS "up") (.alt (litS "down") (.alt (litS "left") (litS "right"))))

/-- One registered parameterized command: compiled pattern, name, and the
pattern's named groups in definition order (`m.groupdict()` key order). -/
structure PatEntry where
  name : String
  re : RE
  groupNames : List String

/-- `r"select (?P<count>\w+ )?words? (?P<direction>left|right)"` -/
def patSelectWord : PatEntry :=
  ⟨"select_word",
   .seq (litS "select ") (.seq countOptGrp (.seq wordsOpt (.seq (litS " ") dirLR))),
   ["count", "direction"]⟩

/-- `r"select (?P<count>\w+ )?(?P<direction>up|down|left|right)"` -/
def patSelectDirection : PatEntry :=
  ⟨"select_direction",
   .seq (litS "select ") (.seq countOptGrp dirUDLR),
   ["count", "direction"]⟩

/-- `r"(?:go )?(?P<count>\w+ )?words? (?P<direction>left|right)"` -/
def patWordMove : PatEntry :=
  ⟨"word_move",
   .seq (.opt (litS "go ")) (.seq countOptGrp (.seq wordsOpt (.seq (litS " ") dirLR))),
   ["count", "direction"]⟩

/-- `r"go (?P<count>\w+) (?P<direction>up|down|left|right)"` -/
def patGoN : PatEntry :=
  ⟨"go_n_direction",
   .seq (litS "go ") (.seq (.grp "count" (.plus pyWordChar)) (.seq (litS " ") dirUDLR)),
   ["count", "direction"]⟩

/-- `r"delete (?P<count>\w+ )?words?"` -/
def patDeleteWords : PatEntry :=
  ⟨"delete_words",
   .seq (litS "delete ") (.seq countOptGrp wordsOpt),
   ["count"]⟩

/-- `r"delete (?P<count>\w+)"` -/
def patDeleteN : PatEntry :=
  ⟨"delete_n",
   .seq (litS "delete ") (.grp "count" (.plus pyWordChar)),
   ["count"]⟩

/-- `r"go to line (?P<number>\d+)"` -/
def patGoToLine : PatEntry :=
  ⟨"go_to_line",
   .seq (litS "go to line ") (.grp "number" (.plus Char.isDigit)),
   ["number"]⟩

/-- `r"select line (?P<number>\d+)"` -/
def patSelectLine : PatEntry :=
  ⟨"select_line",
   .seq (litS "select line ") (.grp "number" (.plus Char.isDigit)),
   ["number"]⟩

/-- `r"(?:type|insert) (?P<text>.+)"` (`.` matches anything except a newline) -/
def patTypeText : PatEntry :=
  ⟨"type_text",
   .seq (.alt (litS "type") (litS "insert")) (.seq (litS " ") (.grp "text" (.plus (fun c => c != '\n')))),
   ["text"]⟩

/-- `_PARAMETERIZED` in registration (= file) order. -/
def PARAMETERIZED : List PatEntry :=
  [patSelectWord, patSelectDirection, patWordMove, patGoN,
   patDeleteWords, patDeleteN, patGoToLine, patSelectLine, patTypeText]

/-- `m.groupdict()`: every named group of the pattern, `none` when the group
did not participate in the match. -/
def groupdictOf (names : List String) (binds : List (String × List Char)) :
    List (String × Option (List Char)) :=
  names.map (fun n => (n, binds.lookup n))

/-- `pattern.match(s)` for one registered entry, returning its groupdict. -/
def pyMatchEntry (e : PatEntry) (s : List Char) :
    Option (List (String × Option (List Char))) :=
  (reMatch e.re s).map (fun r => groupdictOf e.groupNames r.2)

/-- The parameterized tier of `_match_single` / `_fast_path`: first pattern
(in registration order) whose `pattern.match(normalized)` succeeds. -/
def matchParameterized (s : List Char) :
    Option (String × List (String × Option (List Char))) :=
  PARAMETERIZED.findSome? (fun e => (pyMatchEntry e s).map (fun g => (e.name, g)))

/-! ## Formatters (`formatters.py`) -/

/-- `_words`: `text.lower().split()`. -/
def fmtWords (t : List Char) : List (List Char) :=
  pySplit (pyLower t)

/-- `str.capitalize()`: first character upper-cased, the rest lower-cased. -/
def pyCapitalize : List Char → List Char
  | [] => []
  | c :: r => c.toUpper :: r.map Char.toLower

/-- `snake_case` -/
def snake_case (t : List Char) : List Char := List.intercalate ['_'] (fmtWords t)

/-- `camel_case` -/
def camel_case (t : List Char) : List Char :=
  match fmtWords t with
  | [] => []
  | w :: ws => w ++ (ws.map pyCapitalize).flatten

/-- `pascal_case` -/
def pascal_case (t : List Char) : List Char := ((fmtWords t).map pyCapitalize).flatten

/-- `kebab_case` -/
def kebab_case (t : List Char) : List Char := List.intercalate ['-'] (fmtWords t)

/-- `dot_case` -/
def dot_case (t : List Char) : List Char := List.intercalate ['.'] (fmtWords t)

/-- `slash_case` -/
def slash_case (t : List Char) : List Char := List.intercalate ['/'] (fmtWords t)

/-- `upper_case`: `text.upper()` -/
def upper_case (t : List Char) : List Char := t.map Char.toUpper

/-- `lower_case`: `text.lower()` -/
def lower_case (t : List Char) : List Char := t.map Char.toLower

/-- Helper for `str.title()`: upper-case a cased character that follows a
non-cased one, lower-case the rest. -/
def pyTitleGo : Bool → List Char → List Char
  | _, [] => []
  | prevCased, c :: r =>
    if c.isAlpha then
      (if prevCased then c.toLower else c.toUpper) :: pyTitleGo true r
    else c :: pyTitleGo false r

/-- `title_case`: `text.title()` -/
def title_case (t : List Char) : List Char := pyTitleGo false t

/-- `constant_case` -/
def constant_case (t : List Char) : List Char :=
  (List.intercalate ['_'] (fmtWords t)).map Char.toUpper

/-- The `FORMATTERS` registry in dict-insertion order. -/
def FORMATTERS : List (List Char × (List Char → List Char)) :=
  [("snake".data, snake_case), ("snake case".data, snake_case),
   ("camel".data, camel_case), ("camel case".data, camel_case),
   ("pascal".data, pascal_case), ("pascal case".data, pascal_case),
   ("kebab".data, kebab_case), ("kebab case".data, kebab_case),
   ("dot".data, dot_case), ("dot case".data, dot_case),
   ("slash".data, slash_case), ("slash case".data, slash_case),
   ("upper".data, upper_case), ("upper case".data, upper_case),
   ("lower".data, lower_case), ("lower case".data, lower_case),
   ("title".data, title_case), ("title case".data, title_case),
   ("constant".data, constant_case), ("constant case".data, constant_case),
   ("all caps".data, constant_case)]

/-- Stable insertion (descending by length): a newly inserted key goes after
every key of greater-or-equal length, matching Python's stable
`sorted(..., key=len, reverse=True)`. -/
def insertByLenDesc (x : List Char) : List (List Char) → List (List Char)
  | [] => [x]
  | y :: ys => if x.length ≤ y.length then y :: insertByLenDesc x ys else x :: y :: ys

/-- `sorted(FORMATTERS, key=len, reverse=True)` over the registry keys. -/
def sortedFormatterKeys : List (List Char) :=
  (FORMATTERS.map Prod.fst).foldl (fun acc x => insertByLenDesc x acc) []

/-- `try_format(text)`: longest formatter key first; the key must be followed
by at least one more word; the transform is applied to the remainder of the
original-cased text (sliced by the key's length, then stripped). -/
def tryFormat (text : List Char) : Option (List Char × List Char) :=
  let textLower := pyStrip (pyLower text)
  sortedFormatterKeys.findSome? (fun name =>
    if (name ++ [' ']).isPrefixOf textLower then
      let remainder := pyStrip (text.drop name.length)
      if remainder.isEmpty then none
      else (FORMATTERS.lookup name).map (fun f => (f remainder, name))
    else none)

/-! ## NATO phonetic alphabet (`_try_nato_sequence`) -/

/-- `_NATO`: alphabet word → letter. -/
def NATO : List (List Char × Char) :=
  [("alpha".data, 'a'), ("bravo".data, 'b'), ("charlie".data, 'c'), ("delta".data, 'd'),
   ("echo".data, 'e'), ("foxtrot".data, 'f'), ("golf".data, 'g'), ("hotel".data, 'h'),
   ("india".data, 'i'), ("juliet".data, 'j'), ("kilo".data, 'k'), ("lima".data, 'l'),
   ("mike".data, 'm'), ("november".data, 'n'), ("oscar".data, 'o'), ("papa".data, 'p'),
   ("quebec".data, 'q'), ("romeo".data, 'r'), ("sierra".data, 's'), ("tango".data, 't'),
   ("uniform".data, 'u'), ("victor".data, 'v'), ("whiskey".data, 'w'), ("xray".data, 'x'),
   ("yankee".data, 'y'), ("zulu".data, 'z')]

/-- `_CAP_PREFIXES` (local to `_try_nato_sequence`). -/
def CAP_PREFIXES : List (List Char) :=
  ["cap".data, "big".data, "tap".data, "hat".data, "hap".data]

/-- Membership in `_NATO` / the derived `_NATO_WORDS` set. -/
def natoLookup (w : List Char) : Option Char := NATO.lookup w

/-- The `while i < len(words)` loop of `_try_nato_sequence`: prefix+alphabet
word consumes two and emits the uppercase letter, a plain alphabet word
consumes one and emits the lowercase letter, anything else fails the whole
sequence. -/
def natoDecodeWords : List (List Char) → Option (List Char)
  | [] => some []
  | [w] =>
    match natoLookup w with
    | some c => some [c]
    | none => none
  | w :: w2 :: rest =>
    if CAP_PREFIXES.contains w && (natoLookup w2).isSome then
      match natoLookup w2 with
      | some c => (natoDecodeWords rest).map (fun out => c.toUpper :: out)
      | none => none
    else
      match natoLookup w with
      | some c => (natoDecodeWords (w2 :: rest)).map (fun out => c :: out)
      | none => none

/-- `_try_nato_sequence(normalized)`: single words are left to the exact
table; an empty decode result is reported as no match. -/
def tryNato (normalized : List Char) : Option (List Char) :=
  let words := pySplit normalized
  if words.length < 2 then none
  else
    match natoDecodeWords words with
    | some out => if out.isEmpty then none else some out
    | none => none

/-! ## The exact-command registry (`_EXACT`, `_DICTATION_SAFE`)

Each `@exact(name, dictation_safe=...)` call stores `name → handler` in the
`_EXACT` dict (all keys are distinct, so dict lookup is association-list
lookup), and adds dictation-safe names to `_DICTATION_SAFE`.  Handlers are
modelled by what they do: mode switches, scratch, key injection. -/

/-- The observable behavior of an exact command's handler. -/
inductive ExactHandler where
  /-- `_switch_command` -/
  | switchCommand
  /-- `_switch_dictation` -/
  | switchDictation
  /-- `_scratch_last` -/
  | scratchThat
  /-- `actions.hotkey(key, *mods)` -/
  | hotkey (key : List Char) (mods : List (List Char))
  /-- `actions.press_key(key)` -/
  | pressKey (key : List Char)
  /-- NATO letter handler: `actions.type_text(letter)` -/
  | typeLetter (c : Char)
deriving DecidableEq

/-- Abbreviation for a hotkey handler. -/
def hk (k : String) (ms : List String) : ExactHandler :=
  .hotkey k.data (ms.map String.data)

/-- Abbreviation for a press-key handler. -/
def pk (k : String) : ExactHandler := .pressKey k.data

/-- The `@exact(...)`-decorated registrations of `commands.py`, in file order. -/
def exactBase : List (List Char × ExactHandler) :=
  [("command mode".data, .switchCommand), ("commands".data, .switchCommand),
   ("command".data, .switchCommand),
   ("dictation mode".data, .switchDictation), ("dictation".data, .switchDictation),
   ("dictate".data, .switchDictation), ("typing".data, .switchDictation),
   ("typing mode".data, .switchDictation),
   ("scratch that".data, .scratchThat), ("scratch".data, .scratchThat),
   ("cancel".data, hk "c" ["ctrl"]), ("control c".data, hk "c" ["ctrl"]),
   ("clear".data, hk "l" ["ctrl"]), ("exit".data, hk "d" ["ctrl"]),
   ("suspend".data, hk "z" ["ctrl"]),
   ("find".data, hk "f" ["cmd"]), ("find all".data, hk "f" ["cmd", "shift"]),
   ("go to file".data, hk "p" ["cmd"]), ("comment".data, hk "/" ["cmd"]),
   ("new tab".data, hk "t" ["cmd"]),
   ("undo".data, hk "z" ["cmd"]), ("redo".data, hk "z" ["cmd", "shift"]),
   ("copy".data, hk "c" ["cmd"]), ("cut".data, hk "x" ["cmd"]),
   ("paste".data, hk "v" ["cmd"]), ("save".data, hk "s" ["cmd"]),
   ("select all".data, hk "a" ["cmd"]), ("select line".data, hk "l" ["cmd"]),
   ("new line".data, pk "return"), ("slap".data, pk "return"),
   ("enter".data, pk "return"), ("stomp".data, hk "return" ["shift"]),
   ("newline".data, hk "return" ["shift"]),
   ("go up".data, pk "up"), ("go down".data, pk "down"),
   ("go left".data, pk "left"), ("go right".data, pk "right"),
   ("page up".data, pk "pageup"), ("page down".data, pk "pagedown"),
   ("go home".data, pk "home"), ("head".data, hk "left" ["cmd"]),
   ("go end".data, pk "end"), ("tail".data, hk "right" ["cmd"]),
   ("delete that".data, pk "backspace"), ("delete".data, pk "backspace"),
   ("backspace".data, pk "backspace"),
   ("delete word".data, hk "backspace" ["alt"]), ("option delete".data, hk "backspace" ["alt"]),
   ("tab".data, pk "tab"), ("escape".data, pk "escape"), ("space".data, pk "space"),
   ("next tab".data, hk "]" ["cmd", "shift"]), ("previous tab".data, hk "[" ["cmd", "shift"]),
   ("close tab".data, hk "w" ["cmd"]),
   ("next window".data, hk "`" ["cmd"]),
   ("next app".data, hk "tab" ["cmd"]), ("previous app".data, hk "tab" ["cmd", "shift"]),
   ("switch app".data, hk "tab" ["cmd"]),
   ("pane left".data, hk "h" ["alt"]), ("pain left".data, hk "h" ["alt"]),
   ("focus left".data, hk "h" ["alt"]),
   ("pane down".data, hk "j" ["alt"]), ("pain down".data, hk "j" ["alt"]),
   ("focus down".data, hk "j" ["alt"]),
   ("pane up".data, hk "k" ["alt"]), ("pain up".data, hk "k" ["alt"]),
   ("focus up".data, hk "k" ["alt"]),
   ("pane right".data, hk "l" ["alt"]), ("pain right".data, hk "l" ["alt"]),
   ("focus right".data, hk "l" ["alt"])]

/-- `for _nato_word, _letter in _NATO.items(): _EXACT[_nato_word] = handler(_letter)` -/
def natoSingles : List (List Char × ExactHandler) :=
  NATO.map (fun wc => (wc.1, ExactHandler.typeLetter wc.2))

/-- The `"<prefix> <nato>"` uppercase registrations. -/
def natoPrefixed : List (List Char × ExactHandler) :=
  CAP_PREFIXES.flatMap (fun p =>
    NATO.map (fun wc => (p ++ ' ' :: wc.1, ExactHandler.typeLetter wc.2.toUpper)))

/-- The full `_EXACT` dict (all keys distinct). -/
def EXACT : List (List Char × ExactHandler) :=
  exactBase ++ natoSingles ++ natoPrefixed

/-- `normalized in _EXACT` / `_EXACT[normalized]`. -/
def lookupExact (n : List Char) : Option ExactHandler :=
  EXACT.lookup n

/-- `_DICTATION_SAFE`: the names registered with `dictation_safe=True`. -/
def DICTATION_SAFE : List (List Char) :=
  ["command mode".data, "commands".data, "command".data,
   "dictation mode".data, "dictation".data, "dictate".data,
   "typing".data, "typing mode".data,
   "scratch that".data, "scratch".data]

/-- `_INSERT_AS_KEY`: remainders of "type/insert X" pressed as keys. -/
def INSERT_AS_KEY : List (List Char × ExactHandler) :=
  [("space".data, pk "space"), ("tab".data, pk "tab"),
   ("enter".data, pk "return"), ("newline".data, hk "return" ["shift"])]

/-! ## `_match_single` (command-mode single-phrase matching) -/

/-- Result of command matching (`CommandMatch` dataclass); the handler
closure is represented by the registry data that determines it. -/
structure CommandMatch where
  name : String
  kind : String
  args : List (String × Option (List Char))
deriving DecidableEq

/-- `_match_single(normalized)`: exact → parameterized → formatter → NATO,
`none` when nothing matches. -/
def matchSingle (normalized : List Char) : Option CommandMatch :=
  match lookupExact normalized with
  | some _ => some ⟨String.mk normalized, "exact", []⟩
  | none =>
    match matchParameterized normalized with
    | some r => some ⟨r.1, "parameterized", r.2⟩
    | none =>
      match tryFormat normalized with
      | some r => some ⟨"format:" ++ String.mk r.2, "formatter", [("text", some r.1)]⟩
      | none =>
        match tryNato normalized with
        | some txt => some ⟨"nato_sequence", "exact", [("text", some txt)]⟩
        | none => none

/-! ## Dictation-mode matching (`match_dictation_mode`) -/

/-- `_DICTATION_PUNCTUATION`: spoken word → inserted punctuation. -/
def DICTATION_PUNCTUATION : List (List Char × List Char) :=
  [("comma".data, ",".data), ("period".data, ".".data), ("dot".data, ".".data),
   ("full stop".data, ".".data), ("question mark".data, "?".data),
   ("exclamation mark".data, "!".data), ("exclamation point".data, "!".data),
   ("bang".data, "!".data), ("colon".data, ":".data), ("semicolon".data, ";".data),
   ("semi colon".data, ";".data), ("dash".data, "-".data), ("hyphen".data, "-".data),
   ("open paren".data, "(".data), ("close paren".data, ")".data),
   ("open bracket".data, "[".data), ("close bracket".data, "]".data),
   ("open brace".data, "\x7b".data), ("close brace".data, "\x7d".data),
   ("ellipsis".data, "...".data)]

/-- `_OPENING_PUNCT` -/
def OPENING_PUNCT : List (List Char) := ["(".data, "[".data, "\x7b".data]

/-- `_AMBIGUOUS_PUNCT` -/
def AMBIGUOUS_PUNCT : List (List Char) :=
  ["bang".data, "dash".data, "dot".data, "hyphen".data, "colon".data]

/-- `_PUNCT_MAX_WORDS = max(len(k.split()) for k in _DICTATION_PUNCTUATION)` -/
def PUNCT_MAX_WORDS : Nat :=
  (DICTATION_PUNCTUATION.map (fun kv => (pySplit kv.1).length)).foldl Nat.max 0

/-- The scanning loop of `_match_trailing_punctuation`:
`for n in range(min(_PUNCT_MAX_WORDS, len(words)), 0, -1)`. -/
def trailingPunctGo (words : List (List Char)) :
    Nat → Option (List Char × List Char × List Char)
  | 0 => none
  | n + 1 =>
    let tl := joinSpace (words.drop (words.length - (n + 1)))
    match DICTATION_PUNCTUATION.lookup tl with
    | some ch =>
      let before := joinSpace (words.take (words.length - (n + 1)))
      if !before.isEmpty && AMBIGUOUS_PUNCT.contains tl then trailingPunctGo words n
      else some (before, tl, ch)
    | none => trailingPunctGo words n

/-- `_match_trailing_punctuation(normalized) -> (before, punct_word, char)?` -/
def matchTrailingPunctuation (normalized : List Char) :
    Option (List Char × List Char × List Char) :=
  let words := pySplit normalized
  if words.isEmpty then none
  else trailingPunctGo words (Nat.min PUNCT_MAX_WORDS words.length)

/-- `_raw_prefix(raw_text, normalized_before)`: first `len(before.split())`
whitespace-words of the raw text, rejoined. -/
def rawBefore (raw before : List Char) : List Char :=
  if before.isEmpty then []
  else joinSpace ((pySplit raw).take (pySplit before).length)

/-- The four return sites of `match_dictation_mode`, with the data each
closure captures. -/
inductive DictMatch where
  /-- dictation-safe exact command (`kind="exact"`, handler from `_EXACT`) -/
  | exactSafe (name : List Char) (h : ExactHandler)
  /-- standalone punctuation word (`_type_punctuation(char)`) -/
  | punctStandalone (word : List Char) (char : List Char)
  /-- trailing punctuation (`_type_dictation_then_punct(raw_before, char)`) -/
  | dictPlusPunct (textBefore : List Char) (word : List Char) (char : List Char)
  /-- everything else: literal dictation (`_type_dictation(raw_text)`) -/
  | dictation (text : List Char)
deriving DecidableEq

/-- The punctuation / dictation tail of `match_dictation_mode` (everything
after the dictation-safe exact check). -/
def matchDictationModeRest (raw normalized : List Char) : DictMatch :=
  match matchTrailingPunctuation normalized with
  | some r =>
    if r.1.isEmpty then .punctStandalone r.2.1 r.2.2
    else .dictPlusPunct (rawBefore raw r.1) r.2.1 r.2.2
  | none => .dictation raw

/-- `match_dictation_mode(raw_text)`. -/
def matchDictationMode (raw : List Char) : DictMatch :=
  let normalized := pyNormalize raw
  match lookupExact normalized with
  | some h =>
    if DICTATION_SAFE.contains normalized then .exactSafe normalized h
    else matchDictationModeRest raw normalized
  | none => matchDictationModeRest raw normalized

/-! ## Engine state (`engine.py`) and the mode-switch handlers

`engine.py` defines `State = {LISTENING, PAUSED}` and never assigns
`commands._engine` (the module-level global stays `None`), so the
`_switch_command` / `_switch_dictation` bodies, guarded by `if _engine:`,
never do anything.  `_engine` being unassigned everywhere is modelled by
giving it type `Option Empty`. -/

/-- The `State` enum of `engine.py` — its only members. -/
inductive EngineState where
  | LISTENING
  | PAUSED
deriving DecidableEq

/-- `commands._engine`: initialized to `None` at module load and never
assigned anywhere in the repository. -/
def engineGlobal : Option Empty := none

/-- Effect of an exact handler on the engine's state: `_switch_command` and
`_switch_dictation` do nothing unless `_engine` is set (it never is); no
other handler touches the state. -/
def runModeHandler (h : ExactHandler) (s : EngineState) : EngineState :=
  match h with
  | .switchCommand =>
    match engineGlobal with
    | none => s
    | some e => e.elim
  | .switchDictation =>
    match engineGlobal with
    | none => s
    | some e => e.elim
  | _ => s

/-! ## Typed-text emission and the scratch buffer (`_last_typed_len`) -/

/-- An injected keyboard event (`actions.press_key` / `actions.type_text`). -/
inductive KeyEvt where
  | press (key : List Char) (mods : List (List Char))
  | typed (text : List Char)
deriving DecidableEq

/-- One backspace key press. -/
def backspaceEvt : KeyEvt := .press "backspace".data []

/-- The mutable module state of `commands.py` relevant to scratch:
`_last_typed_len` plus the stream of injected events. -/
structure TypingState where
  lastTypedLen : Nat
  events : List KeyEvt
deriving DecidableEq

/-- `_type_dictation(text)`: types `text + " "` and records its length. -/
def typeDictationRun (text : List Char) (st : TypingState) : TypingState :=
  { lastTypedLen := (text ++ [' ']).length,
    events := st.events ++ [.typed (text ++ [' '])] }

/-- `_type_formatted(text)`: types `text` and records its length. -/
def typeFormattedRun (text : List Char) (st : TypingState) : TypingState :=
  { lastTypedLen := text.length, events := st.events ++ [.typed text] }

/-- `_type_punctuation(char)`. -/
def typePunctuationRun (char : List Char) (st : TypingState) : TypingState :=
  if OPENING_PUNCT.contains char then
    { lastTypedLen := char.length, events := st.events ++ [.typed char] }
  else
    { lastTypedLen := char.length + 1,
      events := st.events ++ [backspaceEvt, .typed (char ++ [' '])] }

/-- `_type_dictation_then_punct(text, char)`. -/
def typeDictationThenPunctRun (text char : List Char) (st : TypingState) : TypingState :=
  { lastTypedLen := (text ++ char ++ [' ']).length,
    events := st.events ++ [.typed (text ++ char ++ [' '])] }

/-- `_scratch_last()`: emit `_last_typed_len` backspaces, then reset to 0. -/
def scratchLastRun (st : TypingState) : TypingState :=
  if 0 < st.lastTypedLen then
    { lastTypedLen := 0,
      events := st.events ++ List.replicate st.lastTypedLen backspaceEvt }
  else st

/-- `cmd_type_text(text)`: calls `actions.type_text(text)` directly and does
NOT touch `_last_typed_len`. -/
def cmdTypeTextRun (text : List Char) (st : TypingState) : TypingState :=
  { lastTypedLen := st.lastTypedLen, events := st.events ++ [.typed text] }

/-! ## Repeat counts (`_parse_count`, `cmd_go_n`) -/

/-- `_NUMBER_WORDS` -/
def NUMBER_WORDS : List (List Char × Nat) :=
  [("one".data, 1), ("two".data, 2), ("three".data, 3), ("four".data, 4),
   ("five".data, 5), ("six".data, 6), ("seven".data, 7), ("eight".data, 8),
   ("nine".data, 9), ("ten".data, 10),
   ("to".data, 2), ("too".data, 2), ("for".data, 4)]

/-- `str.isdigit()` on ASCII input. -/
def pyIsDigitStr (s : List Char) : Bool := !s.isEmpty && s.all Char.isDigit

/-- `int(s)` for a digit string. -/
def natOfDigits (s : List Char) : Nat :=
  s.foldl (fun acc c => acc * 10 + (c.toNat - 48)) 0

/-- `_parse_count(s)`: digit string, else number word, else default 1. -/
def parseCount (s : List Char) : Nat :=
  if pyIsDigitStr s then natOfDigits s
  else (NUMBER_WORDS.lookup (pyLower s)).getD 1

/-- `_repeat_key(key, count, modifiers)`. -/
def repeatKey (key : List Char) (count : Nat) (mods : List (List Char)) : List KeyEvt :=
  List.replicate count (.press key mods)

/-- `cmd_go_n(count, direction)`: the key events it injects. -/
def cmdGoNRun (count direction : List Char) : List KeyEvt :=
  repeatKey direction (parseCount count) []

/-! ## Intent layer (`intent.py`) -/

/-- `Action` dataclass (the resolved handler closure is determined by the
recorded registry data). -/
structure IAction where
  kind : String
  name : String
  args : List (String × Option (List Char))
  text : List Char
deriving DecidableEq

/-- `IntentResult` (without the latency measurement). -/
structure IntentResult where
  actions : List IAction
  source : String
deriving DecidableEq

/-- A case-insensitive literal: each character compared lower-cased. -/
def ciLit (s : String) : RE :=
  s.data.foldr (fun ch acc => .seq (.cls (fun c => c.toLower == ch)) acc) .eps

/-- `r"^\s*(?:type|insert)\s+(?P<text>.+?)\s*$"` with `re.IGNORECASE`
(the `$` anchor is handled by `dollarTruncate` plus a full match). -/
def typeInsertRawRE : RE :=
  .seq (.star pySpace)
    (.seq (.alt (ciLit "type") (ciLit "insert"))
      (.seq (.plus pySpace)
        (.seq (.grp "text" (.lazyPlus (fun c => c != '\n')))
          (.star pySpace))))

/-- Python's `$` also matches just before one final newline. -/
def dollarTruncate (s : List Char) : List Char :=
  if s.getLast? = some '\n' then s.dropLast else s

/-- The raw `type X` / `insert X` capture shared by `match` and
`_fast_path`: first backtracking path consuming the whole (truncated)
string, returning the `text` group. -/
def typeInsertRaw (raw : List Char) : Option (List Char) :=
  let s := dollarTruncate raw
  (((runRE typeInsertRawRE s).filter (fun r => r.1.isEmpty)).head?).bind
    (fun r => r.2.lookup "text")

/-- `[.!?,;]+` split separator class. -/
def isSentencePunct (c : Char) : Bool :=
  c = '.' || c = '!' || c = '?' || c = ',' || c = ';'

/-- Worker for `re.split(r'[.!?,;]+', raw)`: pieces between maximal
separator runs, empty pieces included (as `re.split` produces them).
`acc = none` means a separator was just consumed and the next piece has not
started yet. -/
def splitSentGo : Option (List Char) → List Char → List (List Char)
  | none, [] => [[]]
  | some acc, [] => [acc]
  | none, c :: rest =>
    if isSentencePunct c then splitSentGo none rest
    else splitSentGo (some [c]) rest
  | some acc, c :: rest =>
    if isSentencePunct c then acc :: splitSentGo none rest
    else splitSentGo (some (acc ++ [c])) rest

/-- `re.split(r'[.!?,;]+', raw)`. -/
def splitSentences (raw : List Char) : List (List Char) :=
  splitSentGo (some []) raw

/-- `_match_single_normalized` of `IntentParser`: one normalized phrase to
an `Action`. -/
def matchSingleNormalized (normalized : List Char) : Option IAction :=
  if normalized.isEmpty then none
  else
    match lookupExact normalized with
    | some _ => some ⟨"command", String.mk normalized, [], []⟩
    | none =>
      match matchParameterized normalized with
      | some r => some ⟨"command", r.1, r.2, []⟩
      | none =>
        match tryFormat normalized with
        | some r => some ⟨"format", "format:" ++ String.mk r.2, [], r.1⟩
        | none =>
          match tryNato normalized with
          | some t => some ⟨"command", "nato_sequence", [], t⟩
          | none => none

/-- `IntentParser._fast_path(transcript)`. -/
def fastPath (raw : List Char) : Option IntentResult :=
  match typeInsertRaw raw with
  | some text =>
    let tn := pyNormalize text
    match INSERT_AS_KEY.lookup tn with
    | some _ => some ⟨[⟨"command", "insert:" ++ String.mk tn, [], []⟩], "fast_path"⟩
    | none => some ⟨[⟨"command", "type_text", [("text", some text)], text⟩], "fast_path"⟩
  | none =>
    let normalized := pyNormalize raw
    match lookupExact normalized with
    | some _ => some ⟨[⟨"command", String.mk normalized, [], []⟩], "fast_path"⟩
    | none =>
      match matchParameterized normalized with
      | some r => some ⟨[⟨"command", r.1, r.2, []⟩], "fast_path"⟩
      | none =>
        match tryFormat normalized with
        | some r => some ⟨[⟨"format", "format:" ++ String.mk r.2, [], r.1⟩], "fast_path"⟩
        | none =>
          match tryNato normalized with
          | some t => some ⟨[⟨"command", "nato_sequence", [], t⟩], "fast_path"⟩
          | none =>
            let sentences := ((splitSentences raw).map pyStrip).filter (fun s => !s.isEmpty)
            if 1 < sentences.length then
              let acts := sentences.filterMap (fun s => matchSingleNormalized (pyNormalize s))
              if acts.isEmpty then none else some ⟨acts, "fast_path"⟩
            else none

/-- `_COMMAND_WORDS` of `IntentParser`. -/
def COMMAND_WORDS : List (List Char) :=
  ["go".data, "move".data, "delete".data, "select".data, "save".data,
   "undo".data, "redo".data,
   "copy".data, "cut".data, "paste".data, "tab".data, "close".data,
   "open".data, "new".data,
   "word".data, "words".data, "line".data, "head".data, "tail".data,
   "home".data, "end".data,
   "up".data, "down".data, "left".data, "right".data, "page".data, "focus".data,
   "cancel".data, "escape".data, "enter".data, "space".data, "backspace".data,
   "type".data, "insert".data, "scratch".data, "find".data, "comment".data,
   "snake".data, "camel".data, "pascal".data, "kebab".data, "constant".data,
   "beginning".data, "front".data, "back".data, "start".data, "top".data,
   "bottom".data,
   "switch".data, "change".data, "next".data, "previous".data]

/-- `_has_command_words(transcript)`. -/
def hasCommandWords (transcript : List Char) : Bool :=
  (pySplit (pyNormalize transcript)).any (fun w => COMMAND_WORDS.contains w)

/-! ### The escalation (SLM) path, `_slm_path` / `_parse_slm_response`

The remote call and the JSON layer are modelled at the shape the parsing
code dispatches on: the provider either raises (timeout / transport error /
any exception — all caught by the `try/except` in `_slm_path`), returns no
text, or returns text that is malformed JSON, a JSON non-array, or an array
of kind-tagged items. -/

/-- One item of a well-formed JSON array response. -/
inductive SlmItem where
  /-- `{"kind":"command","name":...,"args":{...}}` -/
  | command (name : List Char) (args : List (List Char × List Char))
  /-- `{"kind":"dictation","text":...}` -/
  | dictation (text : List Char)
  /-- any other `kind` value: skipped by `_parse_slm_response` -/
  | otherKind
deriving DecidableEq

/-- The remote response after the JSON layer. -/
inductive SlmRaw where
  /-- `json.loads` raises (invalid JSON) -/
  | malformedJson
  /-- parses but is not a list -/
  | notArray
  /-- a JSON array of items -/
  | array (items : List SlmItem)
deriving DecidableEq

/-- What one invocation of the provider does. -/
inductive ProviderOutcome where
  /-- the call times out, fails in transport, or raises for any other reason -/
  | raises
  /-- provider returns `None` or empty text -/
  | noText
  /-- provider returns text with the given JSON-level shape -/
  | ok (raw : SlmRaw)
deriving DecidableEq

/-- `_resolve_command_action(item)`: re-resolve a remote command name/args
against the registry (exact first, both underscore and space joined, then
reconstructed candidate phrases through the parameterized matcher). -/
def resolveCommandAction (name : List Char) (args : List (List Char × List Char)) :
    Option IAction :=
  let normalized := pyNormalize name
  let withSpaces := normalized.map (fun c => if c = '_' then ' ' else c)
  match [normalized, withSpaces].findSome?
      (fun cand => (lookupExact cand).map (fun _ => cand)) with
  | some cand => some ⟨"command", String.mk cand, [], []⟩
  | none =>
    let extra :=
      if args.isEmpty then []
      else
        let argStr := joinSpace (args.map Prod.snd)
        let count := (args.lookup "count".data).getD []
        let direction := (args.lookup "direction".data).getD []
        [normalized ++ ' ' :: argStr, withSpaces ++ ' ' :: argStr, argStr] ++
          (if !count.isEmpty && !direction.isEmpty then
            ["go ".data ++ count ++ ' ' :: direction,
             count ++ " words ".data ++ direction,
             "delete ".data ++ count ++ " words".data,
             "delete ".data ++ count,
             "select ".data ++ count ++ ' ' :: direction]
          else if !count.isEmpty && direction.isEmpty then
            ["select ".data ++ count ++ " words left".data,
             "delete ".data ++ count ++ " words".data,
             "delete ".data ++ count]
          else [])
    ([normalized, withSpaces] ++ extra).findSome?
      (fun cand => (matchParameterized cand).map (fun r => (⟨"command", r.1, r.2, []⟩ : IAction)))

/-- The item loop of `_parse_slm_response`. -/
def parseSlmItems (items : List SlmItem) : List IAction :=
  items.filterMap (fun item =>
    match item with
    | .command name args => resolveCommandAction name args
    | .dictation text =>
      if text.isEmpty then none
      else some ⟨"dictation", "dictation", [], text⟩
    | .otherKind => none)

/-- `_parse_slm_response(raw, ...)`: `None` for malformed / non-array JSON
or when zero actions resolve. -/
def parseSlmResponse : SlmRaw → Option (List IAction)
  | .malformedJson => none
  | .notArray => none
  | .array items =>
    let acts := parseSlmItems items
    if acts.isEmpty then none else some acts

/-- `_slm_path`: every raised exception is caught and turned into `None`. -/
def slmPath (outcome : ProviderOutcome) : Option IntentResult :=
  match outcome with
  | .raises => none
  | .noText => none
  | .ok raw => (parseSlmResponse raw).map (fun as => ⟨as, "slm"⟩)

/-- `_fallback(transcript)`: literal dictation of the transcript. -/
def fallbackResult (transcript : List Char) : IntentResult :=
  ⟨[⟨"dictation", "dictation", [], transcript⟩], "fallback"⟩

/-- `IntentParser.parse`: fast path, then (when enabled and the lexical
heuristic passes) the SLM path, then the dictation fallback. -/
def intentParse (useSlm : Bool) (transcript : List Char)
    (outcome : ProviderOutcome) : IntentResult :=
  match fastPath transcript with
  | some r => r
  | none =>
    if useSlm && hasCommandWords transcript then
      match slmPath outcome with
      | some r => r
      | none => fallbackResult transcript
    else fallbackResult transcript

/-- The spec's description of `decode_phonetic`, as a relation (used to
compare `_try_nato_sequence` against the specified left-to-right walk): each
step is either a capitalization-prefix word immediately followed by an
alphabet word (emitting the uppercase letter) or a plain alphabet word
(emitting the lowercase letter). -/
inductive NatoDecodes : List (List Char) → List Char → Prop where
  | nil : NatoDecodes [] []
  | plain (w : List Char) (c : Char) (ws : List (List Char)) (out : List Char) :
      natoLookup w = some c → NatoDecodes ws out → NatoDecodes (w :: ws) (c :: out)
  | capped (p w : List Char) (c : Char) (ws : List (List Char)) (out : List Char) :
      CAP_PREFIXES.contains p = true → natoLookup w = some c →
      NatoDecodes ws out → NatoDecodes (p :: w :: ws) (c.toUpper :: out)

/-! ## Supporting lemmas -/

theorem mem_collapseWsGo (l : List Char) :
    ∀ (b : Bool), ∀ c ∈ collapseWsGo b l, c = ' ' ∨ (c ∈ l ∧ pySpace c = false) := by
  induction l with
  | nil => intro b c h; simp [collapseWsGo] at h
  | cons d rest ih =>
    intro b c h
    by_cases hd : pySpace d = true
    · rw [collapseWsGo, if_pos hd] at h
      cases b with
      | true =>
        rcases ih true c h with h1 | ⟨h1, h2⟩
        · exact Or.inl h1
        · exact Or.inr ⟨List.mem_cons_of_mem _ h1, h2⟩
      | false =>
        rcases List.mem_cons.mp h with h1 | h1
        · exact Or.inl h1
        · rcases ih true c h1 with h2 | ⟨h2, h3⟩
          · exact Or.inl h2
          · exact Or.inr ⟨List.mem_cons_of_mem _ h2, h3⟩
    · have hd2 : pySpace d = false := by simpa using hd
      rw [collapseWsGo, if_neg (by simp [hd2])] at h
      rcases List.mem_cons.mp h with h1 | h1
      · subst h1
        exact Or.inr ⟨List.mem_cons_self _ _, hd2⟩
      · rcases ih false c h1 with h2 | ⟨h2, h3⟩
        · exact Or.inl h2
        · exact Or.inr ⟨List.mem_cons_of_mem _ h2, h3⟩

theorem mem_collapseWs (l : List Char) :
    ∀ c ∈ collapseWs l, c = ' ' ∨ (c ∈ l ∧ pySpace c = false) :=
  mem_collapseWsGo l false

theorem head?_collapseWsGo_true (l : List Char) :
    ∀ c, (collapseWsGo true l).head? = some c → pySpace c = false := by
  induction l with
  | nil => intro c h; simp [collapseWsGo] at h
  | cons d rest ih =>
    intro c h
    by_cases hd : pySpace d = true
    · rw [collapseWsGo, if_pos hd, if_pos rfl] at h
      exact ih c h
    · have hd2 : pySpace d = false := by simpa using hd
      rw [collapseWsGo, if_neg (by simp [hd2])] at h
      simp only [List.head?_cons, Option.some.injEq] at h
      subst h
      exact hd2

theorem chain'_collapseWsGo (l : List Char) :
    ∀ b : Bool, (collapseWsGo b l).Chain' (fun a c => pySpace a = false ∨ pySpace c = false) := by
  induction l with
  | nil => intro b; simp [collapseWsGo]
  | cons d rest ih =>
    intro b
    by_cases hd : pySpace d = true
    · rw [collapseWsGo, if_pos hd]
      cases b with
      | true =>
        rw [if_pos rfl]
        exact ih true
      | false =>
        rw [if_neg (by simp)]
        rw [List.chain'_cons']
        refine ⟨?_, ih true⟩
        intro y hy
        exact Or.inr (head?_collapseWsGo_true rest y hy)
    · have hd2 : pySpace d = false := by simpa using hd
      rw [collapseWsGo, if_neg (by simp [hd2])]
      rw [List.chain'_cons']
      exact ⟨fun y _ => Or.inl hd2, ih false⟩

theorem chain'_collapseWs (l : List Char) :
    (collapseWs l).Chain' (fun a c => pySpace a = false ∨ pySpace c = false) :=
  chain'_collapseWsGo l false

theorem spacesOk_collapseWs (l : List Char) :
    ∀ c ∈ collapseWs l, pySpace c = true → c = ' ' := by
  intro c hc hs
  rcases mem_collapseWs l c hc with h | ⟨_, h2⟩
  · exact h
  · rw [hs] at h2; cases h2

theorem collapseWsGo_true_eq_false (l : List Char)
    (h : ∀ c, l.head? = some c → pySpace c = false) :
    collapseWsGo true l = collapseWsGo false l := by
  cases l with
  | nil => rfl
  | cons d rest =>
    have hd := h d rfl
    rw [collapseWsGo, collapseWsGo, if_neg (by simp [hd]), if_neg (by simp [hd])]

theorem collapseWs_eq_self (l : List Char)
    (h1 : ∀ c ∈ l, pySpace c = true → c = ' ')
    (h2 : l.Chain' (fun a c => pySpace a = false ∨ pySpace c = false)) :
    collapseWs l = l := by
  unfold collapseWs
  induction l with
  | nil => rfl
  | cons d rest ih =>
    by_cases hd : pySpace d = true
    · have hd' : d = ' ' := h1 d (List.mem_cons_self _ _) hd
      rw [collapseWsGo, if_pos hd, if_neg (by simp)]
      have hrest : collapseWsGo true rest = collapseWsGo false rest := by
        apply collapseWsGo_true_eq_false
        intro c hc
        cases rest with
        | nil => simp at hc
        | cons e tl =>
          simp only [List.head?_cons, Option.some.injEq] at hc
          subst hc
          rcases (List.chain'_cons.mp h2).1 with h | h
          · rw [hd] at h; cases h
          · exact h
      rw [hrest, ih (fun c hc hs => h1 c (List.mem_cons_of_mem _ hc) hs) h2.tail, hd']
    · have hd2 : pySpace d = false := by simpa using hd
      rw [collapseWsGo, if_neg (by simp [hd2])]
      rw [ih (fun c hc hs => h1 c (List.mem_cons_of_mem _ hc) hs) h2.tail]

theorem head?_dropWhile_false (p : Char → Bool) (l : List Char) :
    ∀ c, (l.dropWhile p).head? = some c → p c = false := by
  induction l with
  | nil => intro c h; simp [List.dropWhile] at h
  | cons d rest ih =>
    intro c h
    by_cases hp : p d
    · rw [List.dropWhile_cons_of_pos hp] at h
      exact ih c h
    · rw [List.dropWhile_cons_of_neg hp] at h
      simp only [List.head?_cons, Option.some.injEq] at h
      subst h
      simpa using hp

theorem dropWhile_self_of_head (p : Char → Bool) (l : List Char)
    (h : ∀ c, l.head? = some c → p c = false) : l.dropWhile p = l := by
  cases l with
  | nil => rfl
  | cons d rest =>
    rw [List.dropWhile_cons_of_neg]
    simp [h d rfl]

theorem chain'_dropWhile {R : Char → Char → Prop} (p : Char → Bool) (l : List Char)
    (h : l.Chain' R) : (l.dropWhile p).Chain' R := by
  induction l with
  | nil => simp
  | cons d rest ih =>
    by_cases hp : p d
    · rw [List.dropWhile_cons_of_pos hp]
      exact ih h.tail
    · rwa [List.dropWhile_cons_of_neg hp]

theorem chain'_reverse_symm {R : Char → Char → Prop}
    (hsymm : ∀ a b, R a b → R b a) (l : List Char)
    (h : l.Chain' R) : l.reverse.Chain' R := by
  rw [List.chain'_reverse]
  exact h.imp (fun a b hab => hsymm a b hab)

theorem mem_pyStrip (l : List Char) (c : Char) (h : c ∈ pyStrip l) : c ∈ l := by
  unfold pyStrip at h
  rw [List.mem_reverse] at h
  have h2 := (List.dropWhile_sublist _).mem h
  rw [List.mem_reverse] at h2
  exact (List.dropWhile_sublist _).mem h2

theorem chain'_pyStrip {R : Char → Char → Prop}
    (hsymm : ∀ a b, R a b → R b a) (l : List Char)
    (h : l.Chain' R) : (pyStrip l).Chain' R := by
  unfold pyStrip
  exact chain'_reverse_symm hsymm _
    (chain'_dropWhile _ _ (chain'_reverse_symm hsymm _ (chain'_dropWhile _ _ h)))

theorem getLast?_dropWhile_of_ne_nil (p : Char → Bool) (l : List Char)
    (h : l.dropWhile p ≠ []) : (l.dropWhile p).getLast? = l.getLast? := by
  conv_rhs => rw [← List.takeWhile_append_dropWhile (p := p) (l := l)]
  rw [List.getLast?_append]
  cases hx : (l.dropWhile p).getLast? with
  | none =>
    rw [List.getLast?_eq_none_iff] at hx
    exact absurd hx h
  | some c => simp

theorem pyStrip_idem (l : List Char) : pyStrip (pyStrip l) = pyStrip l := by
  by_cases hBnil : (l.dropWhile pySpace).reverse.dropWhile pySpace = []
  · unfold pyStrip
    rw [hBnil]
    simp [List.dropWhile]
  · unfold pyStrip
    have h1 : ((l.dropWhile pySpace).reverse.dropWhile pySpace).reverse.dropWhile pySpace
        = ((l.dropWhile pySpace).reverse.dropWhile pySpace).reverse := by
      apply dropWhile_self_of_head
      intro c hc
      rw [List.head?_reverse] at hc
      rw [getLast?_dropWhile_of_ne_nil _ _ hBnil, List.getLast?_reverse] at hc
      exact head?_dropWhile_false pySpace l c hc
    rw [h1, List.reverse_reverse]
    have h2 : ((l.dropWhile pySpace).reverse.dropWhile pySpace).dropWhile pySpace
        = (l.dropWhile pySpace).reverse.dropWhile pySpace := by
      apply dropWhile_self_of_head
      intro c hc
      exact head?_dropWhile_false pySpace _ c hc
    rw [h2]

theorem charOfNat_toNat (n : Nat) (h : n.isValidChar) : (Char.ofNat n).toNat = n := by
  simp [Char.ofNat, h, Char.ofNatAux, Char.toNat, UInt32.toNat, BitVec.toNat_ofNatLt]

theorem toLower_eq_self (c : Char) (h : ¬(c.toNat ≥ 65 ∧ c.toNat ≤ 90)) : c.toLower = c := by
  unfold Char.toLower
  simp only [h, if_false, ite_eq_right_iff]

theorem toLower_idem (c : Char) : c.toLower.toLower = c.toLower := by
  by_cases h : c.toNat ≥ 65 ∧ c.toNat ≤ 90
  · have h2 : c.toLower = Char.ofNat (c.toNat + 32) := by
      unfold Char.toLower
      simp [h]
    have hv : (c.toNat + 32).isValidChar := Or.inl (by omega)
    have ht := charOfNat_toNat _ hv
    apply toLower_eq_self
    rw [h2, ht]
    omega
  · rw [toLower_eq_self c h]
    exact toLower_eq_self c h

theorem map_self_of (f : Char → Char) (l : List Char) (h : ∀ c ∈ l, f c = c) :
    l.map f = l := by
  induction l with
  | nil => rfl
  | cons d rest ih =>
    simp only [List.map_cons, h d (List.mem_cons_self _ _), List.cons.injEq, true_and]
    exact ih (fun c hc => h c (List.mem_cons_of_mem _ hc))

theorem toLower_mem_pyNormalize (l : List Char) (c : Char) (h : c ∈ pyNormalize l) :
    c.toLower = c := by
  rcases mem_collapseWs _ c h with h1 | ⟨h1, _⟩
  · subst h1; decide
  · have h2 := List.mem_of_mem_filter h1
    have h3 := mem_pyStrip _ _ h2
    rcases List.mem_map.mp h3 with ⟨d, _, hd⟩
    rw [← hd]
    exact toLower_idem d

theorem keep_mem_pyNormalize (l : List Char) (c : Char) (h : c ∈ pyNormalize l) :
    keepWordSpace c = true := by
  rcases mem_collapseWs _ c h with h1 | ⟨h1, _⟩
  · subst h1; decide
  · exact List.of_mem_filter h1

theorem pyNormalize_pyNormalize (l : List Char) :
    pyNormalize (pyNormalize l) = pyStrip (pyNormalize l) := by
  conv_lhs => rw [pyNormalize]
  have hA : pyLower (pyNormalize l) = pyNormalize l :=
    map_self_of _ _ (toLower_mem_pyNormalize l)
  rw [show pyLower (pyNormalize l) = pyNormalize l from hA]
  have hC : (pyStrip (pyNormalize l)).filter keepWordSpace = pyStrip (pyNormalize l) :=
    List.filter_eq_self.mpr (fun c hc => keep_mem_pyNormalize l c (mem_pyStrip _ _ hc))
  rw [hC]
  exact collapseWs_eq_self _
    (fun c hc => spacesOk_collapseWs _ c (mem_pyStrip _ _ hc))
    (chain'_pyStrip (fun a b hab => hab.symm) _ (chain'_collapseWs _))

theorem pyNormalize_third (l : List Char) :
    pyNormalize (pyNormalize (pyNormalize l)) = pyNormalize (pyNormalize l) := by
  rw [pyNormalize_pyNormalize (pyNormalize l), pyNormalize_pyNormalize l,
    pyStrip_idem, ← pyNormalize_pyNormalize l]

theorem findSome?_of_take_all_none {α : Type} {β : Type} (f : α → Option β) :
    ∀ (l : List α) (i : Nat) (e : α) (b : β),
      l.get? i = some e →
      ((l.take i).all fun x => (f x).isNone) = true →
      f e = some b →
      l.findSome? f = some b := by
  intro l
  induction l with
  | nil => intro i e b hget _ _; simp at hget
  | cons a t ih =>
    intro i e b hget hall hfe
    cases i with
    | zero =>
      simp only [List.get?_cons_zero, Option.some.injEq] at hget
      subst hget
      rw [List.findSome?_cons, hfe]
    | succ n =>
      rw [List.take_succ_cons, List.all_cons, Bool.and_eq_true] at hall
      rw [List.findSome?_cons]
      cases hfa : f a with
      | none => exact ih n e b hget hall.2 hfe
      | some val =>
        rw [hfa] at hall
        simp at hall

theorem findSome?_of_all_none {α : Type} {β : Type} (f : α → Option β) :
    ∀ l : List α, (l.all fun x => (f x).isNone) = true → l.findSome? f = none := by
  intro l
  induction l with
  | nil => intro _; rfl
  | cons a t ih =>
    intro hall
    rw [List.all_cons, Bool.and_eq_true] at hall
    rw [List.findSome?_cons]
    cases hfa : f a with
    | none => exact ih hall.2
    | some val =>
      rw [hfa] at hall
      simp at hall

theorem scratchLastRun_events (st : TypingState) :
    (scratchLastRun st).events = st.events ++ List.replicate st.lastTypedLen backspaceEvt := by
  unfold scratchLastRun
  by_cases h : 0 < st.lastTypedLen
  · rw [if_pos h]
  · rw [if_neg h]
    have h0 : st.lastTypedLen = 0 := by omega
    rw [h0]
    simp

theorem scratchLastRun_lastTypedLen (st : TypingState) :
    (scratchLastRun st).lastTypedLen = 0 := by
  unfold scratchLastRun
  by_cases h : 0 < st.lastTypedLen
  · rw [if_pos h]
  · rw [if_neg h]
    omega

theorem scratchLastRun_idem (st : TypingState) :
    scratchLastRun (scratchLastRun st) = scratchLastRun st := by
  have h := scratchLastRun_lastTypedLen st
  conv_lhs => rw [scratchLastRun]
  rw [h]
  simp

theorem capWord_not_nato (w : List Char) (h : CAP_PREFIXES.contains w = true) :
    natoLookup w = none := by
  have hm : w ∈ CAP_PREFIXES := by simpa using h
  simp only [CAP_PREFIXES, List.mem_cons, List.not_mem_nil, or_false] at hm
  rcases hm with h1 | h1 | h1 | h1 | h1 <;> subst h1 <;> decide

theorem natoDecodeWords_sound (ws : List (List Char)) :
    ∀ out, natoDecodeWords ws = some out → NatoDecodes ws out := by
  induction ws using natoDecodeWords.induct with
  | case1 =>
    intro out h
    simp only [natoDecodeWords, Option.some.injEq] at h
    subst h
    exact NatoDecodes.nil
  | case2 w c hl =>
    intro out h
    rw [natoDecodeWords, hl] at h
    simp only [Option.some.injEq] at h
    subst h
    exact NatoDecodes.plain w c [] [] hl NatoDecodes.nil
  | case3 w hl =>
    intro out h
    rw [natoDecodeWords, hl] at h
    cases h
  | case4 w w2 rest hc c hl ih =>
    intro out h
    rw [natoDecodeWords, if_pos hc, hl] at h
    cases hrec : natoDecodeWords rest with
    | none => rw [hrec] at h; cases h
    | some out2 =>
      rw [hrec] at h
      simp only [Option.map_some', Option.some.injEq] at h
      subst h
      obtain ⟨hc1, _⟩ : CAP_PREFIXES.contains w = true ∧ (natoLookup w2).isSome = true := by
        simpa using hc
      exact NatoDecodes.capped w w2 c rest out2 hc1 hl (ih out2 hrec)
  | case5 w w2 rest hc hl =>
    intro out h
    obtain ⟨_, hc2⟩ : CAP_PREFIXES.contains w = true ∧ (natoLookup w2).isSome = true := by
      simpa using hc
    rw [hl] at hc2
    cases hc2
  | case6 w w2 rest hc c hl ih =>
    intro out h
    rw [natoDecodeWords, if_neg hc, hl] at h
    cases hrec : natoDecodeWords (w2 :: rest) with
    | none => rw [hrec] at h; cases h
    | some out2 =>
      rw [hrec] at h
      simp only [Option.map_some', Option.some.injEq] at h
      subst h
      exact NatoDecodes.plain w c (w2 :: rest) out2 hl (ih out2 hrec)
  | case7 w w2 rest hc hl =>
    intro out h
    rw [natoDecodeWords, if_neg hc, hl] at h
    cases h

theorem natoDecodeWords_complete (ws : List (List Char)) (out : List Char)
    (h : NatoDecodes ws out) : natoDecodeWords ws = some out := by
  induction h with
  | nil => rfl
  | plain w c ws2 out2 hw _ ih =>
    cases ws2 with
    | nil =>
      rw [natoDecodeWords, hw]
      simp only [natoDecodeWords, Option.some.injEq] at ih
      rw [← ih]
    | cons w2 rest =>
      rw [natoDecodeWords]
      have hcw : CAP_PREFIXES.contains w = false := by
        by_contra hcc
        have : CAP_PREFIXES.contains w = true := by
          cases hx : CAP_PREFIXES.contains w
          · exact absurd hx hcc
          · rfl
        rw [capWord_not_nato w this] at hw
        cases hw
      rw [if_neg (by rw [hcw]; simp), hw, ih]
      rfl
  | capped p w c ws2 out2 hp hw _ ih =>
    rw [natoDecodeWords, if_pos (by rw [hp, hw]; rfl), hw, ih]
    rfl

theorem natoDecodes_ne_nil (ws : List (List Char)) (out : List Char)
    (h : NatoDecodes ws out) (hne : ws ≠ []) : out ≠ [] := by
  cases h with
  | nil => exact absurd rfl hne
  | plain w c ws2 out2 _ _ => simp
  | capped p w c ws2 out2 _ _ _ => simp

/-! ## Claim theorems -/

/-- Claim C1, counterexample: on the normalized utterance
`"go 3 left banana"` no registered pattern has a full-string match, yet the
parameterized tier claims it for `go_n_direction` — because the code uses
`pattern.match` (anchored at the start only), not a full-string match. -/
theorem claim_C1_counterexample :
    (PARAMETERIZED.all fun e => !(reFullMatchExists e.re "go 3 left banana".data)) = true
    ∧ matchParameterized "go 3 left banana".data
      = some ("go_n_direction",
          [("count", some "3".data), ("direction", some "left".data)]) :=
  ⟨by decide, by decide⟩

/-- Claim C1, amended: parameterized matching returns the first pattern, in
registration order, whose match anchored at the start of the normalized
utterance succeeds (trailing unmatched text is permitted and ignored); only
when no registered pattern matches at the start does the tier produce no
match.  An utterance that merely begins with a pattern's shape IS claimed by
that pattern. -/
theorem claim_C1 :
    (∀ (s : List Char) (i : Nat) (e : PatEntry) (g : List (String × Option (List Char))),
      PARAMETERIZED.get? i = some e →
      ((PARAMETERIZED.take i).all fun p => (pyMatchEntry p s).isNone) = true →
      pyMatchEntry e s = some g →
      matchParameterized s = some (e.name, g))
    ∧ (∀ s : List Char,
      (PARAMETERIZED.all fun p => (pyMatchEntry p s).isNone) = true →
      matchParameterized s = none) := by
  constructor
  · intro s i e g hget hall hmatch
    unfold matchParameterized
    apply findSome?_of_take_all_none _ _ i e _ hget
    · rw [List.all_eq_true] at hall ⊢
      intro x hx
      have := hall x hx
      cases hpm : pyMatchEntry x s with
      | none => rfl
      | some v => rw [hpm] at this; cases this
    · rw [hmatch]
      rfl
  · intro s hall
    unfold matchParameterized
    apply findSome?_of_all_none
    rw [List.all_eq_true] at hall ⊢
    intro x hx
    have := hall x hx
    cases hpm : pyMatchEntry x s with
    | none => rfl
    | some v => rw [hpm] at this; cases this

/-- Claim C1, witness: the amended first-match rule applied at index 3
(`go_n_direction`) on `"go 3 left banana"`, whose three earlier patterns all
fail to match. -/
theorem claim_C1_witness :
    matchParameterized "go 3 left banana".data
      = some (patGoN.name,
          [("count", some "3".data), ("direction", some "left".data)]) :=
  claim_C1.1 "go 3 left banana".data 3 patGoN
    [("count", some "3".data), ("direction", some "left".data)]
    rfl (by decide) (by decide)

/-- Claim C2 (code_bug): `commands.py` registers `"dictation mode"` /
`"command mode"` with the `_switch_dictation` / `_switch_command` handlers,
but `engine.py` never assigns `commands._engine` (modelled by
`engineGlobal = none`), so executing those handlers leaves any engine state
unchanged; moreover the `State` enum of `engine.py` has only the members
`LISTENING` and `PAUSED` — there is no `Command` / `Dictation` state at all
(and no `Engine.set_state`), contradicting the claimed two-state
Command/Dictation machine. -/
theorem claim_C2 :
    lookupExact "dictation mode".data = some ExactHandler.switchDictation
    ∧ lookupExact "command mode".data = some ExactHandler.switchCommand
    ∧ engineGlobal = none
    ∧ (∀ s : EngineState, runModeHandler ExactHandler.switchDictation s = s)
    ∧ (∀ s : EngineState, runModeHandler ExactHandler.switchCommand s = s)
    ∧ (∀ s : EngineState, s = EngineState.LISTENING ∨ s = EngineState.PAUSED) := by
  refine ⟨by decide, by decide, rfl, fun s => rfl, fun s => rfl, fun s => ?_⟩
  cases s
  · exact Or.inl rfl
  · exact Or.inr rfl

/-- Claim C3, counterexample: normalization is NOT idempotent.
`_normalize` strips before removing punctuation, so
`normalize("a .") = "a "` (trailing space exposed by the removed dot) while
`normalize(normalize("a .")) = "a"`. -/
theorem claim_C3_counterexample :
    pyNormalize (pyNormalize "a .".data) ≠ pyNormalize "a .".data
    ∧ pyNormalize "a .".data = "a ".data
    ∧ pyNormalize (pyNormalize "a .".data) = "a".data := by
  refine ⟨by decide, by decide, by decide⟩

/-- Claim C3, amended: normalization lower-cases, removes non-word
non-space characters and collapses whitespace runs, but trims the ends only
before punctuation removal, so one leading/trailing space can survive; a
second application exactly strips the ends
(`normalize ∘ normalize = strip ∘ normalize`), hence the output of two
applications is a fixed point. -/
theorem claim_C3 : ∀ l : List Char,
    pyNormalize (pyNormalize l) = pyStrip (pyNormalize l)
    ∧ pyNormalize (pyNormalize (pyNormalize l)) = pyNormalize (pyNormalize l) :=
  fun l => ⟨pyNormalize_pyNormalize l, pyNormalize_third l⟩

/-- Claim C4, counterexample: `cmd_type_text` (the `"type X"` handler) emits
text via `actions.type_text` without recording its length in
`_last_typed_len`, so after `type hello` (5 characters) from a fresh state a
single scratch emits zero backspaces instead of 5. -/
theorem claim_C4_counterexample :
    (cmdTypeTextRun "hello".data ⟨0, []⟩).events = [KeyEvt.typed "hello".data]
    ∧ "hello".data.length = 5
    ∧ scratchLastRun (cmdTypeTextRun "hello".data ⟨0, []⟩)
        = cmdTypeTextRun "hello".data ⟨0, []⟩
    ∧ (5 : Nat) ≠ 0 := by
  refine ⟨by decide, by decide, by decide, by decide⟩

/-- Claim C4, amended: the emission helpers that do update the scratch
buffer (`_type_dictation`, `_type_formatted`, `_type_punctuation`,
`_type_dictation_then_punct`) record the exact length of the text they
insert (including any appended trailing space), overwriting any prior
value; one scratch then emits exactly that many backspaces and a second
consecutive scratch emits zero.  The property does not extend to
`cmd_type_text` (see the counterexample). -/
theorem claim_C4 : ∀ (text char : List Char) (st : TypingState),
    ((typeDictationRun text st).lastTypedLen = text.length + 1
     ∧ (typeDictationRun text st).events = st.events ++ [KeyEvt.typed (text ++ [' '])]
     ∧ (text ++ [' ']).length = text.length + 1
     ∧ (scratchLastRun (typeDictationRun text st)).events
        = (typeDictationRun text st).events ++ List.replicate (text.length + 1) backspaceEvt
     ∧ scratchLastRun (scratchLastRun (typeDictationRun text st))
        = scratchLastRun (typeDictationRun text st))
    ∧ ((typeFormattedRun text st).lastTypedLen = text.length
     ∧ (scratchLastRun (typeFormattedRun text st)).events
        = (typeFormattedRun text st).events ++ List.replicate text.length backspaceEvt
     ∧ scratchLastRun (scratchLastRun (typeFormattedRun text st))
        = scratchLastRun (typeFormattedRun text st))
    ∧ ((typePunctuationRun char st).lastTypedLen
        = (if OPENING_PUNCT.contains char then char.length else (char ++ [' ']).length)
     ∧ (typePunctuationRun char st).events
        = st.events ++ (if OPENING_PUNCT.contains char then [KeyEvt.typed char]
            else [backspaceEvt, KeyEvt.typed (char ++ [' '])])
     ∧ (scratchLastRun (typePunctuationRun char st)).events
        = (typePunctuationRun char st).events
          ++ List.replicate (typePunctuationRun char st).lastTypedLen backspaceEvt
     ∧ scratchLastRun (scratchLastRun (typePunctuationRun char st))
        = scratchLastRun (typePunctuationRun char st))
    ∧ ((typeDictationThenPunctRun text char st).lastTypedLen
        = (text ++ char ++ [' ']).length
     ∧ (typeDictationThenPunctRun text char st).events
        = st.events ++ [KeyEvt.typed (text ++ char ++ [' '])]
     ∧ (scratchLastRun (typeDictationThenPunctRun text char st)).events
        = (typeDictationThenPunctRun text char st).events
          ++ List.replicate (text ++ char ++ [' ']).length backspaceEvt
     ∧ scratchLastRun (scratchLastRun (typeDictationThenPunctRun text char st))
        = scratchLastRun (typeDictationThenPunctRun text char st)) := by
  intro text char st
  refine ⟨⟨?_, rfl, by simp, ?_, scratchLastRun_idem _⟩,
    ⟨rfl, ?_, scratchLastRun_idem _⟩,
    ⟨?_, ?_, scratchLastRun_events _, scratchLastRun_idem _⟩,
    ⟨rfl, rfl, ?_, scratchLastRun_idem _⟩⟩
  · simp [typeDictationRun]
  · rw [scratchLastRun_events]
    simp [typeDictationRun]
  · rw [scratchLastRun_events]
    rfl
  · unfold typePunctuationRun
    by_cases hop : OPENING_PUNCT.contains char
    · rw [if_pos hop, if_pos hop]
    · rw [if_neg hop, if_neg hop]
      simp
  · unfold typePunctuationRun
    by_cases hop : OPENING_PUNCT.contains char
    · rw [if_pos hop, if_pos hop]
    · rw [if_neg hop, if_neg hop]
  · rw [scratchLastRun_events]
    rfl

/-- Claim C5: pattern precedence — `"go word left"` resolves to `word_move`
(never `go_n_direction`), `"go 3 left"` to `go_n_direction`,
`"delete two words"` to `delete_words` (not `delete_n`), and `"delete 3"`
to `delete_n`. -/
theorem claim_C5 :
    matchSingle (pyNormalize "go word left".data)
      = some ⟨"word_move", "parameterized",
          [("count", none), ("direction", some "left".data)]⟩
    ∧ matchSingle (pyNormalize "go 3 left".data)
      = some ⟨"go_n_direction", "parameterized",
          [("count", some "3".data), ("direction", some "left".data)]⟩
    ∧ matchSingle (pyNormalize "delete two words".data)
      = some ⟨"delete_words", "parameterized", [("count", some "two ".data)]⟩
    ∧ matchSingle (pyNormalize "delete 3".data)
      = some ⟨"delete_n", "parameterized", [("count", some "3".data)]⟩ :=
  ⟨by decide, by decide, by decide, by decide⟩

/-- Claim C10: `_parse_count` silently defaults to 1 for any captured count
word that is neither a digit string nor a recognized number word, so
`"go banana up"` matches `go_n_direction` with count word `"banana"` and
presses the up-arrow key exactly once. -/
theorem claim_C10 :
    (∀ s : List Char, pyIsDigitStr s = false →
      NUMBER_WORDS.lookup (pyLower s) = none →
      parseCount s = 1)
    ∧ matchSingle (pyNormalize "go banana up".data)
      = some ⟨"go_n_direction", "parameterized",
          [("count", some "banana".data), ("direction", some "up".data)]⟩
    ∧ cmdGoNRun "banana".data "up".data = [KeyEvt.press "up".data []] := by
  refine ⟨?_, by decide, by decide⟩
  intro s h1 h2
  unfold parseCount
  rw [if_neg (by rw [h1]; simp), h2]
  rfl

/-- Claim C10, witness: the default applied at the non-number word
`"banana"`. -/
theorem claim_C10_witness :
    parseCount "banana".data = 1 :=
  claim_C10.1 "banana".data (by decide) (by decide)

/-- Claim C6: in dictation mode an utterance that is not a dictation-safe
exact entry and not a standalone/trailing punctuation word becomes a
literal-dictation action typing the raw text (even if it would match a
Command-mode rule); dictation-safe exact entries resolve to their handlers;
standalone punctuation words become punctuation-insertion actions. -/
theorem claim_C6 :
    (∀ raw : List Char,
      (lookupExact (pyNormalize raw) = none
        ∨ DICTATION_SAFE.contains (pyNormalize raw) = false) →
      matchTrailingPunctuation (pyNormalize raw) = none →
      matchDictationMode raw = DictMatch.dictation raw)
    ∧ (∀ (raw : List Char) (h : ExactHandler),
      lookupExact (pyNormalize raw) = some h →
      DICTATION_SAFE.contains (pyNormalize raw) = true →
      matchDictationMode raw = DictMatch.exactSafe (pyNormalize raw) h)
    ∧ (∀ (raw w ch : List Char),
      (lookupExact (pyNormalize raw) = none
        ∨ DICTATION_SAFE.contains (pyNormalize raw) = false) →
      matchTrailingPunctuation (pyNormalize raw) = some ([], w, ch) →
      matchDictationMode raw = DictMatch.punctStandalone w ch) := by
  refine ⟨?_, ?_, ?_⟩
  · intro raw hcond htrail
    cases hco : lookupExact (pyNormalize raw) with
    | none => simp [matchDictationMode, hco, matchDictationModeRest, htrail]
    | some h =>
      rcases hcond with h1 | h1
      · rw [hco] at h1; cases h1
      · have h1' : pyNormalize raw ∉ DICTATION_SAFE := by simpa using h1
        simp [matchDictationMode, hco, h1', matchDictationModeRest, htrail]
  · intro raw h hco hsafe
    have hsafe' : pyNormalize raw ∈ DICTATION_SAFE := by simpa using hsafe
    simp [matchDictationMode, hco, hsafe']
  · intro raw w ch hcond htrail
    cases hco : lookupExact (pyNormalize raw) with
    | none => simp [matchDictationMode, hco, matchDictationModeRest, htrail]
    | some h =>
      rcases hcond with h1 | h1
      · rw [hco] at h1; cases h1
      · have h1' : pyNormalize raw ∉ DICTATION_SAFE := by simpa using h1
        simp [matchDictationMode, hco, h1', matchDictationModeRest, htrail]

/-- Claim C6, witness: `"go 3 left"` — an utterance that matches a
Command-mode parameterized pattern — is typed literally in dictation mode. -/
theorem claim_C6_witness :
    matchDictationMode "go 3 left".data = DictMatch.dictation "go 3 left".data :=
  claim_C6.1 "go 3 left".data (Or.inl (by decide)) (by decide)

/-- Claim C7: when the whole utterance matches no rule, the raw transcript
is split on sentence punctuation; with two or more non-empty pieces and at
least one match, the result is a single composite fast-path result whose
sub-actions are the matching pieces in order (non-matching pieces silently
dropped); `"go left, save."` and `"undo. redo."` give composites with
exactly 2 sub-actions and source `fast_path`, `"save."` a single save
action. -/
theorem claim_C7 :
    (∀ raw : List Char,
      typeInsertRaw raw = none →
      lookupExact (pyNormalize raw) = none →
      matchParameterized (pyNormalize raw) = none →
      tryFormat (pyNormalize raw) = none →
      tryNato (pyNormalize raw) = none →
      1 < (((splitSentences raw).map pyStrip).filter (fun s => !s.isEmpty)).length →
      (((splitSentences raw).map pyStrip).filter (fun s => !s.isEmpty)).filterMap
          (fun s => matchSingleNormalized (pyNormalize s)) ≠ [] →
      fastPath raw = some
        ⟨(((splitSentences raw).map pyStrip).filter (fun s => !s.isEmpty)).filterMap
            (fun s => matchSingleNormalized (pyNormalize s)), "fast_path"⟩)
    ∧ fastPath "go left, save.".data
      = some ⟨[⟨"command", "go left", [], []⟩, ⟨"command", "save", [], []⟩], "fast_path"⟩
    ∧ fastPath "undo. redo.".data
      = some ⟨[⟨"command", "undo", [], []⟩, ⟨"command", "redo", [], []⟩], "fast_path"⟩
    ∧ fastPath "save.".data
      = some ⟨[⟨"command", "save", [], []⟩], "fast_path"⟩ := by
  refine ⟨?_, by decide, by decide, by decide⟩
  intro raw h1 h2 h3 h4 h5 hlen hne
  simp only [fastPath, h1, h2, h3, h4, h5]
  rw [if_pos hlen]
  rw [if_neg (fun hcontra => hne (List.isEmpty_iff.mp hcontra))]

/-- Claim C7, witness: the splitting rule applied to `"go left, save."`. -/
theorem claim_C7_witness :
    fastPath "go left, save.".data = some
      ⟨(((splitSentences "go left, save.".data).map pyStrip).filter
            (fun s => !s.isEmpty)).filterMap
          (fun s => matchSingleNormalized (pyNormalize s)), "fast_path"⟩ :=
  claim_C7.1 "go left, save.".data (by decide) (by decide) (by decide) (by decide)
    (by decide) (by decide) (by decide)

/-- Claim C8: phonetic decoding accepts only whole-utterance sequences of
two or more words, and succeeds exactly when the word list decodes by the
left-to-right walk `NatoDecodes` (cap-prefix + alphabet word → uppercase
letter, plain alphabet word → lowercase letter, anything else fails the
whole sequence); `"sierra alpha"` → `"sa"`, `"cap bravo charlie"` → `"Bc"`. -/
theorem claim_C8 :
    (∀ s out : List Char,
      tryNato s = some out ↔ (2 ≤ (pySplit s).length ∧ NatoDecodes (pySplit s) out))
    ∧ tryNato "sierra alpha".data = some "sa".data
    ∧ tryNato "cap bravo charlie".data = some "Bc".data := by
  refine ⟨?_, by decide, by decide⟩
  intro s out
  constructor
  · intro h
    simp only [tryNato] at h
    split at h
    · cases h
    · next hlen =>
      split at h
      · next out2 hdec =>
        split at h
        · cases h
        · next hemp =>
          injection h with h2
          subst h2
          exact ⟨by omega, natoDecodeWords_sound _ _ hdec⟩
      · cases h
  · rintro ⟨hlen, hdec⟩
    simp only [tryNato]
    rw [if_neg (by omega), natoDecodeWords_complete _ _ hdec]
    have hout : out ≠ [] := by
      refine natoDecodes_ne_nil _ _ hdec ?_
      intro hnil
      rw [hnil] at hlen
      simp at hlen
    show (if out.isEmpty then none else some out) = some out
    rw [if_neg (fun hcontra => hout (List.isEmpty_iff.mp hcontra))]

/-- Claim C8, witness: the equivalence applied at `"sierra alpha"`. -/
theorem claim_C8_witness :
    2 ≤ (pySplit "sierra alpha".data).length
    ∧ NatoDecodes (pySplit "sierra alpha".data) "sa".data :=
  (claim_C8.1 "sierra alpha".data "sa".data).mp (by decide)

/-- Claim C9: when the fast path fails, every escalation failure — a raised
timeout/transport error, malformed JSON, a non-array response, or a
response resolving to zero usable actions — degrades to the literal
dictation fallback typing the original transcript; `intentParse` is a total
function, so no exception propagates to the caller. -/
theorem claim_C9 :
    ∀ (t : List Char) (o : ProviderOutcome),
      fastPath t = none →
      (o = ProviderOutcome.raises
        ∨ o = ProviderOutcome.ok SlmRaw.malformedJson
        ∨ o = ProviderOutcome.ok SlmRaw.notArray
        ∨ (∃ items, o = ProviderOutcome.ok (SlmRaw.array items)
            ∧ parseSlmItems items = [])) →
      intentParse true t o = fallbackResult t := by
  intro t o hfp hbad
  have hslm : slmPath o = none := by
    rcases hbad with h | h | h | ⟨items, h, hres⟩ <;>
      subst h <;>
      simp [slmPath, parseSlmResponse, *]
  simp only [intentParse, hfp, hslm]
  by_cases hcw : hasCommandWords t
  · simp [hcw]
  · simp [hcw]

/-- Claim C9, witness: a malformed-JSON escalation on `"go banana"` (an
utterance the fast path cannot resolve but whose words pass the
command-word heuristic) falls back to literal dictation. -/
theorem claim_C9_witness :
    intentParse true "go banana".data (ProviderOutcome.ok SlmRaw.malformedJson)
      = fallbackResult "go banana".data :=
  claim_C9 "go banana".data (ProviderOutcome.ok SlmRaw.malformedJson) (by decide)
    (Or.inr (Or.inl rfl))

end Vozctl
